import Mathlib

/-!
Verification of the deterministic data-shaping routines of the Flight-Amadeus
travel-planner repository: the itinerary JSON extractor (`parse_itinerary_json`
in streamlit_app.py), the day-count clamp (`clamp_days` in src/utils.py and its
use in `planner_node` of src/itinerary_graph.py), the flight-offer normalizer
(`parse_flight_offer` / `parse_itinerary` in streamlit_app.py), the offer
filter/sort pipeline (inside `display_flight_offers`), and the search-parameter
marshaling of `AmadeusService.search_flights` (src/amadeus_client.py).

Python text is embedded as `List Char`; Python dicts coming from the flight API
are embedded as structures whose optional keys are `Option` fields, mirroring
each `.get(key, default)` in the source.  Python exceptions that the source can
actually raise on these paths (AttributeError on `None.get`, ValueError from
`float`) are embedded as `Except String`.  Python `float` values are modelled
as exact rationals; `sorted` is modelled as a stable insertion sort, which
agrees extensionally with any stable sort.
-/

/-- Whitespace stripped by Python `str.strip()` (ASCII portion). -/
def pyws (c : Char) : Bool :=
  c = ' ' || c = '\t' || c = '\n' || c = '\r' || c = '\x0b' || c = '\x0c'

/-- Whitespace skipped by the JSON grammar of `json.loads`. -/
def jws (c : Char) : Bool :=
  c = ' ' || c = '\t' || c = '\n' || c = '\r'

/-- Model of Python `str.strip()`. -/
def trimWs (l : List Char) : List Char :=
  ((l.dropWhile pyws).reverse.dropWhile pyws).reverse

/-- Python values produced by `json.loads`: JSON integer literals become
Python `int`, other numbers become `float` (embedded here as an exact
rational), and objects become insertion-ordered dicts. -/
inductive Json where
  | null : Json
  | bool : Bool → Json
  | int : Int → Json
  | float : Rat → Json
  | str : String → Json
  | arr : List Json → Json
  | obj : List (String × Json) → Json

/-- Python dict insertion: overwriting an existing key keeps its position,
a new key is appended. -/
def insertKV (k : String) (v : Json) : List (String × Json) → List (String × Json)
  | [] => [(k, v)]
  | (k2, v2) :: rest => if k2 = k then (k, v) :: rest else (k2, v2) :: insertKV k v rest

/-- Value of a decimal digit. -/
def digitVal (c : Char) : Nat := c.toNat - 48

/-- Value of a hexadecimal digit, if any. -/
def hexVal (c : Char) : Option Nat :=
  if c.isDigit then some (c.toNat - 48)
  else if 'a' ≤ c ∧ c ≤ 'f' then some (c.toNat - 87)
  else if 'A' ≤ c ∧ c ≤ 'F' then some (c.toNat - 55)
  else none

/-- Digits to the natural number they denote. -/
def digitsToNat (ds : List Char) : Nat :=
  ds.foldl (fun n c => n * 10 + digitVal c) 0

/-- JSON string body after the opening quote: ordinary characters, the
standard escapes, and four-digit \u escapes; raw control characters are
rejected, as in the strict mode `json.loads` uses. -/
def parseJStringAux : List Char → List Char → Option (String × List Char)
  | _, [] => none
  | acc, c :: rest =>
    if c = '"' then some (String.mk acc.reverse, rest)
    else if c = '\\' then
      match rest with
      | [] => none
      | e :: rest2 =>
        if e = '"' then parseJStringAux ('"' :: acc) rest2
        else if e = '\\' then parseJStringAux ('\\' :: acc) rest2
        else if e = '/' then parseJStringAux ('/' :: acc) rest2
        else if e = 'b' then parseJStringAux ('\x08' :: acc) rest2
        else if e = 'f' then parseJStringAux ('\x0c' :: acc) rest2
        else if e = 'n' then parseJStringAux ('\n' :: acc) rest2
        else if e = 'r' then parseJStringAux ('\r' :: acc) rest2
        else if e = 't' then parseJStringAux ('\t' :: acc) rest2
        else if e = 'u' then
          match rest2 with
          | h1 :: h2 :: h3 :: h4 :: rest6 =>
            match hexVal h1, hexVal h2, hexVal h3, hexVal h4 with
            | some a, some b, some c2, some d =>
              parseJStringAux (Char.ofNat (((a * 16 + b) * 16 + c2) * 16 + d) :: acc) rest6
            | _, _, _, _ => none
          | _ => none
        else none
    else if c.toNat < 32 then none
    else parseJStringAux (c :: acc) rest

/-- JSON number per the strict grammar: optional minus, `0` or a nonzero-led
digit run, optional fraction, optional exponent.  An integral literal yields a
Python `int`, otherwise a `float`. -/
def parseJNumber (cs : List Char) : Option (Json × List Char) :=
  let signed : Bool × List Char :=
    match cs with
    | '-' :: rest => (true, rest)
    | _ => (false, cs)
  match signed.2 with
  | [] => none
  | d :: rest =>
    if d.isDigit then
      let ip : List Char × List Char :=
        if d = '0' then ([d], rest)
        else (d :: rest.takeWhile Char.isDigit, rest.dropWhile Char.isDigit)
      let fp : Option (List Char × List Char) :=
        match ip.2 with
        | '.' :: r2 =>
          match r2.takeWhile Char.isDigit with
          | [] => none
          | fs => some (fs, r2.dropWhile Char.isDigit)
        | _ => some ([], ip.2)
      match fp with
      | none => none
      | some (fracDigits, cs3) =>
        let ep : Option (Option Int × List Char) :=
          match cs3 with
          | 'e' :: r3 =>
            let es : Bool × List Char :=
              match r3 with
              | '-' :: r4 => (true, r4)
              | '+' :: r4 => (false, r4)
              | _ => (false, r3)
            match es.2.takeWhile Char.isDigit with
            | [] => none
            | ds =>
              let e : Int := digitsToNat ds
              some (some (if es.1 then -e else e), es.2.dropWhile Char.isDigit)
          | 'E' :: r3 =>
            let es : Bool × List Char :=
              match r3 with
              | '-' :: r4 => (true, r4)
              | '+' :: r4 => (false, r4)
              | _ => (false, r3)
            match es.2.takeWhile Char.isDigit with
            | [] => none
            | ds =>
              let e : Int := digitsToNat ds
              some (some (if es.1 then -e else e), es.2.dropWhile Char.isDigit)
          | _ => some (none, cs3)
        match ep with
        | none => none
        | some (expPart, cs4) =>
          if fracDigits = [] ∧ expPart = none then
            let n : Int := digitsToNat ip.1
            some (Json.int (if signed.1 then -n else n), cs4)
          else
            let mant : Nat := digitsToNat (ip.1 ++ fracDigits)
            let signedMant : Int := if signed.1 then -(mant : Int) else (mant : Int)
            let e : Int := expPart.getD 0
            let q : Rat :=
              if 0 ≤ e then
                mkRat (signedMant * (10 : Int) ^ e.toNat) ((10 : Nat) ^ fracDigits.length)
              else
                mkRat signedMant ((10 : Nat) ^ fracDigits.length * (10 : Nat) ^ (-e).toNat)
            some (Json.float q, cs4)
    else none

mutual

/-- One JSON value, leading whitespace allowed, returning the unconsumed
remainder.  Fuel makes the nested recursion structural; `json_loads` supplies
more fuel than any input can consume. -/
def parseJValue : Nat → List Char → Option (Json × List Char)
  | 0, _ => none
  | fuel + 1, cs =>
    match cs.dropWhile jws with
    | [] => none
    | c :: rest =>
      if c = '\x7b' then
        match rest.dropWhile jws with
        | '\x7d' :: rest2 => some (Json.obj [], rest2)
        | _ => parseObjBody fuel [] rest
      else if c = '[' then
        match rest.dropWhile jws with
        | ']' :: rest2 => some (Json.arr [], rest2)
        | _ => parseArrBody fuel [] rest
      else if c = '"' then
        match parseJStringAux [] rest with
        | some (s, rest2) => some (Json.str s, rest2)
        | none => none
      else if c = 't' then
        if ("rue".toList).isPrefixOf rest then some (Json.bool true, rest.drop 3) else none
      else if c = 'f' then
        if ("alse".toList).isPrefixOf rest then some (Json.bool false, rest.drop 4) else none
      else if c = 'n' then
        if ("ull".toList).isPrefixOf rest then some (Json.null, rest.drop 3) else none
      else if c = '-' then parseJNumber (c :: rest)
      else if c.isDigit then parseJNumber (c :: rest)
      else none

/-- Object members after the opening brace (or after a comma). -/
def parseObjBody : Nat → List (String × Json) → List Char → Option (Json × List Char)
  | 0, _, _ => none
  | fuel + 1, acc, cs =>
    match cs.dropWhile jws with
    | '"' :: rest =>
      match parseJStringAux [] rest with
      | none => none
      | some (k, rest2) =>
        match rest2.dropWhile jws with
        | ':' :: rest3 =>
          match parseJValue fuel rest3 with
          | none => none
          | some (v, rest4) =>
            match rest4.dropWhile jws with
            | ',' :: rest5 => parseObjBody fuel (insertKV k v acc) rest5
            | '\x7d' :: rest5 => some (Json.obj (insertKV k v acc), rest5)
            | _ => none
        | _ => none
    | _ => none

/-- Array items after the opening bracket (or after a comma). -/
def parseArrBody : Nat → List Json → List Char → Option (Json × List Char)
  | 0, _, _ => none
  | fuel + 1, acc, cs =>
    match parseJValue fuel cs with
    | none => none
    | some (v, rest) =>
      match rest.dropWhile jws with
      | ',' :: rest2 => parseArrBody fuel (acc ++ [v]) rest2
      | ']' :: rest2 => some (Json.arr (acc ++ [v]), rest2)
      | _ => none

end

/-- Model of Python `json.loads` on text: parse one JSON value and require
only whitespace after it. -/
def json_loads (cs : List Char) : Option Json :=
  match parseJValue (cs.length + 1) cs with
  | some (v, rest) => if rest.all jws then some v else none
  | none => none

/-- Line 28-29 of streamlit_app.py: drop a leading three-backtick-json
marker. -/
def stripFence1 (t : List Char) : List Char :=
  if ("```json".toList).isPrefixOf t then t.drop 7 else t

/-- Line 30-31: drop a leading three-backtick marker. -/
def stripFence2 (t : List Char) : List Char :=
  if ("```".toList).isPrefixOf t then t.drop 3 else t

/-- Line 32-33: drop a trailing three-backtick marker (`text[:-3]`). -/
def stripFence3 (t : List Char) : List Char :=
  if ("```".toList).isPrefixOf t.reverse then t.take (t.length - 3) else t

/-- The fence-stripping pipeline of `parse_itinerary_json` (streamlit_app.py
lines 27-34): strip, the three fence-marker steps, strip again.  Python
rebinds `text` at each step, so the later regex fallback also runs on this
stripped text. -/
def stripFences (text : List Char) : List Char :=
  trimWs (stripFence3 (stripFence2 (stripFence1 (trimWs text))))

/-- Split a list at the first occurrence of `c`: returns the (c-free) part
before it and the part after it. -/
def splitFirstChar (c : Char) : List Char → Option (List Char × List Char)
  | [] => none
  | x :: xs =>
    if x = c then some ([], xs)
    else
      match splitFirstChar c xs with
      | some (a, b) => some (x :: a, b)
      | none => none

/-- Model of `re.search` with the greedy DOTALL pattern of an opening brace,
any characters, and a closing brace: the leftmost-longest match runs from the
first opening brace to the last closing brace of the text (and there is no
match when no closing brace follows the first opening brace). -/
def braceMatch (l : List Char) : Option (List Char) :=
  match splitFirstChar '\x7b' l with
  | none => none
  | some (_, b) =>
    match splitFirstChar '\x7d' b.reverse with
    | none => none
    | some (_, cRev) => some ('\x7b' :: (cRev.reverse ++ ['\x7d']))

/-- Model of `parse_itinerary_json` (streamlit_app.py lines 19-45) on string
input: strict parse of the fence-stripped text; on failure, parse the greedy
brace-delimited span of that text; on total failure return the empty mapping.
The Python function catches every JSONDecodeError it can provoke, so it is
total (the embedding treats `json.loads` itself as total, i.e. without a
recursion limit). -/
def parse_itinerary_json (text : List Char) : Json :=
  let s := stripFences text
  match json_loads s with
  | some v => v
  | none =>
    match braceMatch s with
    | some m =>
      match json_loads m with
      | some v => v
      | none => Json.obj []
    | none => Json.obj []

/-- Model of Python `float(...)` on the strings this pipeline feeds it:
optional surrounding whitespace, optional sign, digits with an optional
decimal point, optional exponent.  The value is kept as an exact rational
(Python rounds to a binary double; that rounding is monotone, so the sort
order proved below is the same).  Non-numeric text such as the price
placeholder yields `none`, where Python raises ValueError. -/
def pyFloat (s : String) : Option Rat :=
  let cs := trimWs s.toList
  let signed : Bool × List Char :=
    match cs with
    | '-' :: rest => (true, rest)
    | '+' :: rest => (false, rest)
    | _ => (false, cs)
  let ip := signed.2.takeWhile Char.isDigit
  let cs2 := signed.2.dropWhile Char.isDigit
  let fr : List Char × List Char :=
    match cs2 with
    | '.' :: r2 => (r2.takeWhile Char.isDigit, r2.dropWhile Char.isDigit)
    | _ => ([], cs2)
  if ip = [] ∧ fr.1 = [] then none
  else
    let ep : Option (Int × List Char) :=
      match fr.2 with
      | 'e' :: r3 =>
        let es : Bool × List Char :=
          match r3 with
          | '-' :: r4 => (true, r4)
          | '+' :: r4 => (false, r4)
          | _ => (false, r3)
        match es.2.takeWhile Char.isDigit with
        | [] => none
        | ds =>
          let e : Int := digitsToNat ds
          some (if es.1 then -e else e, es.2.dropWhile Char.isDigit)
      | 'E' :: r3 =>
        let es : Bool × List Char :=
          match r3 with
          | '-' :: r4 => (true, r4)
          | '+' :: r4 => (false, r4)
          | _ => (false, r3)
        match es.2.takeWhile Char.isDigit with
        | [] => none
        | ds =>
          let e : Int := digitsToNat ds
          some (if es.1 then -e else e, es.2.dropWhile Char.isDigit)
      | _ => some (0, fr.2)
    match ep with
    | none => none
    | some (e, cs4) =>
      if cs4 = [] then
        let mant : Nat := digitsToNat (ip ++ fr.1)
        let signedMant : Int := if signed.1 then -(mant : Int) else (mant : Int)
        some (if 0 ≤ e then
          mkRat (signedMant * (10 : Int) ^ e.toNat) ((10 : Nat) ^ fr.1.length)
        else
          mkRat signedMant ((10 : Nat) ^ fr.1.length * (10 : Nat) ^ (-e).toNat))
      else none

/-- Model of `str.replace(",", "")`: remove every comma. -/
def decommaStr (s : String) : String :=
  String.mk (s.toList.filter (fun c => c ≠ ','))

/-- Python string comparison: lexicographic on code points. -/
def charListLe : List Char → List Char → Bool
  | [], _ => true
  | _ :: _, [] => false
  | a :: as, b :: bs => if a < b then true else if a = b then charListLe as bs else false

/-! ## Raw Amadeus offer records

Each structure mirrors exactly the keys the source reads with `.get`; a field
is `Option` because the corresponding key may be absent from the provider
record, in which case the source supplies the default shown at its use
site. -/

/-- A `departure` or `arrival` object inside a segment. -/
structure RawEndpoint where
  iataCode : Option String
  «at» : Option String
deriving DecidableEq

/-- One raw segment record. -/
structure RawSegment where
  departure : Option RawEndpoint
  arrival : Option RawEndpoint
  carrierCode : Option String
  number : Option String
deriving DecidableEq

/-- One raw itinerary (leg) record. -/
structure RawItinerary where
  duration : Option String
  segments : List RawSegment
deriving DecidableEq

/-- The `price` object of an offer. -/
structure RawPrice where
  total : Option String
  currency : Option String
deriving DecidableEq

/-- One raw flight-offer record. -/
structure RawOffer where
  price : Option RawPrice
  itineraries : List RawItinerary
deriving DecidableEq

/-- The dict built by `parse_itinerary` for a leg with at least one segment. -/
structure ParsedLeg where
  departure_airport : String
  departure_time : String
  arrival_airport : String
  arrival_time : String
  duration : String
  stops : Nat
  carriers : List String
  segments : List RawSegment
deriving DecidableEq

/-- The value stored under `outbound` / `return` of a parsed offer: Python
`None`, the empty dict `parse_itinerary` returns for an empty segment list,
or a full leg dict.  The three are distinguished because the filter/sort
stage treats them differently (`None.get` raises AttributeError, the empty
dict defaults `stops` to 999 and is falsy). -/
inductive LegV where
  | noneV : LegV
  | emptyV : LegV
  | legV : ParsedLeg → LegV
deriving DecidableEq

/-- Python truthiness of a leg value: `None` and the empty dict are falsy. -/
def LegV.truthy : LegV → Bool
  | LegV.noneV => false
  | LegV.emptyV => false
  | LegV.legV _ => true

/-- The dict built by `parse_flight_offer`.  `raw` is `none` when the source
omits the `"raw"` key (the early return for an offer without itineraries). -/
structure ParsedOffer where
  price : String
  currency : String
  outbound : LegV
  «return» : LegV
  raw : Option RawOffer
deriving DecidableEq

/-- The default for `seg.get("departure", {})` / `seg.get("arrival", {})`. -/
def emptyEndpoint : RawEndpoint := { iataCode := none, «at» := none }

/-- Distinct non-empty carrier codes of a leg.  The source collects them in a
Python `set` and lists it; set iteration order is unspecified, embedded here
as first-occurrence order. -/
def segCarriers (segs : List RawSegment) : List String :=
  segs.foldl
    (fun acc s =>
      let c := s.carrierCode.getD ("")
      if c = "" then acc else if c ∈ acc then acc else acc ++ [c])
    []

/-- Model of `parse_itinerary` (streamlit_app.py lines 78-112): empty
segment list gives the empty dict; otherwise departure data comes from the
first segment, arrival data from the last, stops is the segment count minus
one. -/
def parse_itinerary (it : RawItinerary) : LegV :=
  match it.segments with
  | [] => LegV.emptyV
  | first :: rest =>
    let lastSeg := (first :: rest).getLast (List.cons_ne_nil first rest)
    let departure := first.departure.getD emptyEndpoint
    let arrival := lastSeg.arrival.getD emptyEndpoint
    LegV.legV
      { departure_airport := departure.iataCode.getD ("")
        departure_time := departure.«at».getD ("")
        arrival_airport := arrival.iataCode.getD ("")
        arrival_time := arrival.«at».getD ("")
        duration := it.duration.getD ("")
        stops := (first :: rest).length - 1
        carriers := segCarriers (first :: rest)
        segments := first :: rest }

/-- Model of `parse_flight_offer` (streamlit_app.py lines 48-75): price data
with defaults, first itinerary as outbound, second as return, the rest
ignored.  The early return for an offer without itineraries has no `"raw"`
key. -/
def parse_flight_offer (offer : RawOffer) : ParsedOffer :=
  let price := offer.price.getD { total := none, currency := none }
  let total_price := price.total.getD ("N/A")
  let currency := price.currency.getD ("USD")
  match offer.itineraries with
  | [] =>
    { price := total_price, currency := currency,
      outbound := LegV.noneV, «return» := LegV.noneV, raw := none }
  | it0 :: rest =>
    { price := total_price, currency := currency,
      outbound := parse_itinerary it0,
      «return» :=
        match rest with
        | [] => LegV.noneV
        | it1 :: _ => parse_itinerary it1,
      raw := some offer }

/-! ## Filter stage (streamlit_app.py lines 162-170) -/

/-- `offer.get("return")`-side of the filter predicate: a falsy return leg
passes outright, otherwise its `stops` (present on every non-empty leg dict)
is compared against the ceiling. -/
def retPasses (c : Nat) : LegV → Bool
  | LegV.legV r => decide (r.stops ≤ c)
  | _ => true

/-- The filter predicate of the list comprehension.  `none` is the
AttributeError Python raises when `offer["outbound"]` is `None`
(`offer.get("outbound", {})` returns the stored `None`, and `None.get`
fails); the `.get("stops", 999)` default fires on the empty leg dict. -/
def offerPassesStops (c : Nat) (o : ParsedOffer) : Option Bool :=
  match o.outbound with
  | LegV.noneV => none
  | LegV.emptyV => some (decide (999 ≤ c) && retPasses c o.«return»)
  | LegV.legV l => some (decide (l.stops ≤ c) && retPasses c o.«return»)

/-- The filtering list comprehension: left to right, first exception
aborts. -/
def filterOffersAux (c : Nat) : List ParsedOffer → Except String (List ParsedOffer)
  | [] => Except.ok []
  | o :: rest =>
    match offerPassesStops c o with
    | none => Except.error ("AttributeError")
    | some b =>
      match filterOffersAux c rest with
      | Except.error e => Except.error e
      | Except.ok r => Except.ok (if b then o :: r else r)

/-- The four options of the Max Stops selectbox. -/
inductive StopSel where
  | any : StopSel
  | s0 : StopSel
  | s1 : StopSel
  | s2plus : StopSel
deriving DecidableEq

/-- The filter step: `"Any"` leaves the list untouched; otherwise the ceiling
is the numeral, with `"2+"` mapped to 2. -/
def display_filter_offers : StopSel → List ParsedOffer → Except String (List ParsedOffer)
  | StopSel.any, l => Except.ok l
  | StopSel.s0, l => filterOffersAux 0 l
  | StopSel.s1, l => filterOffersAux 1 l
  | StopSel.s2plus, l => filterOffersAux 2 l

/-! ## Sort stage (streamlit_app.py lines 172-179) -/

/-- Stable insertion: an element goes before the first existing element it
compares `le` to, hence after all earlier elements with an equal key. -/
def stableInsert (le : α → α → Bool) (a : α) : List α → List α
  | [] => [a]
  | b :: bs => if le a b then a :: b :: bs else b :: stableInsert le a bs

/-- Stable sort; extensionally equal to Python `sorted` for a total
preorder, since stable sorts are unique. -/
def stableSortBy (le : α → α → Bool) : List α → List α
  | [] => []
  | a :: as => stableInsert le a (stableSortBy le as)

/-- Key extraction as `sorted` performs it: for each element in list order,
with the first exception aborting the sort. -/
def computeKeys (key : α → Except String κ) : List α → Except String (List (κ × α))
  | [] => Except.ok []
  | o :: rest =>
    match key o with
    | Except.error e => Except.error e
    | Except.ok k =>
      match computeKeys key rest with
      | Except.error e => Except.error e
      | Except.ok ps => Except.ok ((k, o) :: ps)

/-- `sorted(l, key=key)` with comparison `le` on keys. -/
def sortWithKey (key : α → Except String κ) (le : κ → κ → Bool) (l : List α) :
    Except String (List α) :=
  match computeKeys key l with
  | Except.error e => Except.error e
  | Except.ok ps => Except.ok ((stableSortBy (fun a b => le a.1 b.1) ps).map Prod.snd)

/-- The price sort key `float(str(x.get("price", 0)).replace(",", ""))`;
`none` from `pyFloat` is the ValueError `float` raises. -/
def priceKey (o : ParsedOffer) : Except String Rat :=
  match pyFloat (decommaStr o.price) with
  | some q => Except.ok q
  | none => Except.error ("ValueError")

/-- The duration sort key `x.get("outbound", {}).get("duration", "")`; a
`None` outbound raises AttributeError here too. -/
def durKey (o : ParsedOffer) : Except String String :=
  match o.outbound with
  | LegV.noneV => Except.error ("AttributeError")
  | LegV.emptyV => Except.ok ("")
  | LegV.legV l => Except.ok l.duration

/-- Rational comparison for ascending price sort. -/
def ratLeB (a b : Rat) : Bool := decide (a ≤ b)

/-- Reversed comparison for `reverse=True` (stable descending). -/
def ratGeB (a b : Rat) : Bool := decide (b ≤ a)

/-- Lexicographic comparison of duration strings. -/
def strLeB (a b : String) : Bool := charListLe a.toList b.toList

/-- The four options of the Sort By selectbox. -/
inductive SortSel where
  | priceLowHigh : SortSel
  | priceHighLow : SortSel
  | durationShortest : SortSel
  | departureTime : SortSel
deriving DecidableEq

/-- The sort step.  The source has branches for the two price orders and for
duration, and no branch at all for the Departure Time option, which therefore
leaves the list in its post-filter order. -/
def display_sort_offers : SortSel → List ParsedOffer → Except String (List ParsedOffer)
  | SortSel.priceLowHigh, l => sortWithKey priceKey ratLeB l
  | SortSel.priceHighLow, l => sortWithKey priceKey ratGeB l
  | SortSel.durationShortest, l => sortWithKey durKey strLeB l
  | SortSel.departureTime, l => Except.ok l

/-! ## Day-count clamp (src/utils.py, src/itinerary_graph.py) -/

/-- Model of `clamp_days`: `max(min_days, min(max_days, num_days))`; the
source defaults are `min_days=1`, `max_days=30`. -/
def clamp_days (num_days min_days max_days : Int) : Int :=
  max min_days (min max_days num_days)

/-- Python `isinstance(v, int)` on a parsed JSON value; a Python `bool` is a
subtype of `int`, so it also counts. -/
def Json.isPyInt : Json → Bool
  | Json.int _ => true
  | Json.bool _ => true
  | _ => false

/-- The `int` a Python int-instance stands for (`True` is 1, `False` 0). -/
def Json.pyIntVal : Json → Int
  | Json.int n => n
  | Json.bool b => if b then 1 else 0
  | _ => 0

/-- Dict key lookup. -/
def lookupKey (k : String) : List (String × Json) → Option Json
  | [] => none
  | (k2, v) :: rest => if k2 = k then some v else lookupKey k rest

/-- Dict assignment to an existing key: value replaced in place. -/
def setKey (k : String) (v : Json) : List (String × Json) → List (String × Json)
  | [] => []
  | (k2, v2) :: rest => if k2 = k then (k2, v) :: rest else (k2, v2) :: setKey k v rest

/-- The post-processing of `planner_node` (src/itinerary_graph.py lines
89-91): clamp `total_days` when present and a Python int, otherwise leave the
mapping untouched. -/
def planner_clamp_total_days (itinerary : List (String × Json)) : List (String × Json) :=
  match lookupKey ("total_days") itinerary with
  | some v =>
    if v.isPyInt then
      setKey ("total_days") (Json.int (clamp_days v.pyIntVal 1 30)) itinerary
    else itinerary
  | none => itinerary

/-! ## Search-parameter marshaling (src/amadeus_client.py lines 18-42) -/

/-- The `params` dict `AmadeusService.search_flights` builds, in insertion
order.  `if return_date:` / `if currency:` test Python truthiness (absent or
empty string means omitted); `if non_stop is not None:` admits `False`. -/
def search_flights_params (origin destination departure_date : String)
    (return_date : Option String) (adults : Int) (currency : Option String)
    (non_stop : Option Bool) (max_results : Int) : List (String × String) :=
  [(("originLocationCode" : String), origin.toUpper),
   ("destinationLocationCode", destination.toUpper),
   ("departureDate", departure_date),
   ("adults", toString (max 1 adults)),
   ("max", toString max_results)] ++
  (match return_date with
   | none => []
   | some r => if r = "" then [] else [(("returnDate" : String), r)]) ++
  (match currency with
   | none => []
   | some ccy => if ccy = "" then [] else [(("currencyCode" : String), ccy)]) ++
  (match non_stop with
   | none => []
   | some b => [(("nonStop" : String), if b then ("true" : String) else ("false" : String))])

/-! ## Spec-side predicates and concrete inputs used by the theorems -/

/-- `m` occurs contiguously inside `l`. -/
def InfixOf (m l : List Char) : Prop := ∃ p q, l = p ++ m ++ q

/-- Every contiguous substring of `l` (prefixes of suffixes). -/
def allInfixes (l : List Char) : List (List Char) :=
  l.tails.flatMap List.inits

/-- No contiguous substring of `l` parses as JSON: the formal reading of a
text containing no valid JSON anywhere. -/
def noJsonAnywhere (l : List Char) : Bool :=
  (allInfixes l).all (fun s => (json_loads s).isNone)

/-- The stop count the spec ascribes to a leg value: a missing or empty
outbound leg counts as 999, a real leg its `stops` field. -/
def stopCountOrDefault : LegV → Nat
  | LegV.noneV => 999
  | LegV.emptyV => 999
  | LegV.legV l => l.stops

/-- The filter rule as the spec states it: outbound stop count within the
ceiling, and no (truthy) return leg or return stop count within the
ceiling. -/
def specPasses (c : Nat) (o : ParsedOffer) : Bool :=
  decide (stopCountOrDefault o.outbound ≤ c) && retPasses c o.«return»

/-- The offers whose price string parses to exactly `q`; used to state sort
stability. -/
def keyIsPrice (q : Rat) (o : ParsedOffer) : Bool :=
  match priceKey o with
  | Except.ok k => decide (k = q)
  | Except.error _ => false

/-- A brace-delimited span. -/
def braceObj (mid : List Char) : List Char := '\x7b' :: (mid ++ ['\x7d'])

/-- A brace-delimited span embedded in surrounding text. -/
def embedText (pre mid post : List Char) : List Char := pre ++ braceObj mid ++ post

/-- A raw offer whose `itineraries` list is empty (and price absent). -/
def offerNoItins : RawOffer := { price := none, itineraries := [] }

/-- A concrete segment record. -/
def mkSeg (dep depAt arr arrAt carrier : String) : RawSegment :=
  { departure := some { iataCode := some dep, «at» := some depAt },
    arrival := some { iataCode := some arr, «at» := some arrAt },
    carrierCode := some carrier, number := some ("123") }

/-- A one-segment itinerary departing at the given time. -/
def demoIt (depAt : String) : RawItinerary :=
  { duration := some ("PT11H"),
    segments := [mkSeg ("SFO") (depAt) ("CDG") ("2025-06-02T10:00:00") ("AF")] }

/-- A raw offer with the given price total and one one-segment itinerary. -/
def mkPricedOffer (total : String) (depAt : String) : RawOffer :=
  { price := some { total := some total, currency := some ("USD") },
    itineraries := [demoIt depAt] }

/-- Normalized offer priced 250.00. -/
def offer250 : ParsedOffer :=
  parse_flight_offer (mkPricedOffer ("250.00") ("2025-06-01T08:00:00"))

/-- Normalized offer priced 99.50. -/
def offer9950 : ParsedOffer :=
  parse_flight_offer (mkPricedOffer ("99.50") ("2025-06-01T09:00:00"))

/-- Normalized offer priced 1,200.00 (thousands separator). -/
def offer1200 : ParsedOffer :=
  parse_flight_offer (mkPricedOffer ("1,200.00") ("2025-06-01T10:00:00"))

/-- Normalized offer priced 100.00. -/
def offer100 : ParsedOffer :=
  parse_flight_offer (mkPricedOffer ("100.00") ("2025-06-01T11:00:00"))

/-- Normalized offer whose raw record has no price object, so the price
string is the `"N/A"` default. -/
def offerNA : ParsedOffer :=
  parse_flight_offer
    { price := none, itineraries := [demoIt ("2025-06-01T12:00:00")] }

/-- Normalized offer departing on June 2 (listed first). -/
def offerDepLate : ParsedOffer :=
  parse_flight_offer (mkPricedOffer ("300.00") ("2025-06-02T09:00:00"))

/-- Normalized offer departing on June 1 (listed second). -/
def offerDepEarly : ParsedOffer :=
  parse_flight_offer (mkPricedOffer ("300.00") ("2025-06-01T09:00:00"))

/-- Tie for the stability witness: priced `"5.00"`. -/
def offerTieA : ParsedOffer :=
  parse_flight_offer (mkPricedOffer ("5.00") ("2025-06-01T13:00:00"))

/-- Tie for the stability witness: priced `"5"`, same parsed key. -/
def offerTieB : ParsedOffer :=
  parse_flight_offer (mkPricedOffer ("5") ("2025-06-01T14:00:00"))

/-- First outbound segment of the two-by-two demo offer. -/
def demoSegO1 : RawSegment :=
  mkSeg ("SFO") ("2025-06-01T08:00:00") ("JFK") ("2025-06-01T16:00:00") ("DL")

/-- Second outbound segment of the two-by-two demo offer. -/
def demoSegO2 : RawSegment :=
  mkSeg ("JFK") ("2025-06-01T18:00:00") ("CDG") ("2025-06-02T07:00:00") ("AF")

/-- First return segment of the two-by-two demo offer. -/
def demoSegR1 : RawSegment :=
  mkSeg ("CDG") ("2025-06-08T10:00:00") ("JFK") ("2025-06-08T13:00:00") ("AF")

/-- Second return segment of the two-by-two demo offer. -/
def demoSegR2 : RawSegment :=
  mkSeg ("JFK") ("2025-06-08T15:00:00") ("SFO") ("2025-06-08T21:00:00") ("DL")

/-- Outbound itinerary of the two-by-two demo offer. -/
def demoIt0 : RawItinerary := { duration := some ("PT14H"), segments := [demoSegO1, demoSegO2] }

/-- Return itinerary of the two-by-two demo offer. -/
def demoIt1 : RawItinerary := { duration := some ("PT15H"), segments := [demoSegR1, demoSegR2] }

/-- A raw offer with two itineraries of two segments each, for the
normalizer witness. -/
def demoOffer2x2 : RawOffer :=
  { price := some { total := some ("840.00"), currency := some ("EUR") },
    itineraries := [demoIt0, demoIt1] }
/-- Membership in a stable insertion. -/
theorem mem_stableInsert {α : Type} (le : α → α → Bool) (a x : α) (s : List α) :
    (x ∈ stableInsert le a s) ↔ (x = a ∨ x ∈ s) := by
  induction s with
  | nil => simp [stableInsert]
  | cons b bs ih =>
    simp only [stableInsert]
    by_cases h : le a b
    · simp [h, List.mem_cons]
    · simp [h, List.mem_cons, ih]
      tauto

/-- Membership in a stable sort. -/
theorem mem_stableSortBy {α : Type} (le : α → α → Bool) (x : α) (l : List α) :
    (x ∈ stableSortBy le l) ↔ x ∈ l := by
  induction l with
  | nil => simp [stableSortBy]
  | cons a as ih => simp [stableSortBy, mem_stableInsert, ih, List.mem_cons]

/-- Inserting an element the filter rejects leaves the filtered list alone. -/
theorem filter_stableInsert_neg {α : Type} (le : α → α → Bool) (p : α → Bool) (a : α)
    (ha : p a = false) (s : List α) :
    (stableInsert le a s).filter p = s.filter p := by
  induction s with
  | nil => simp [stableInsert, ha]
  | cons b bs ih =>
    simp only [stableInsert]
    by_cases h : le a b
    · simp [h, List.filter_cons, ha]
    · simp [h, List.filter_cons, ha, ih]

/-- Inserting an element the filter keeps, when kept elements all compare
`le` to one another, puts it at the front of the filtered list. -/
theorem filter_stableInsert_pos {α : Type} (le : α → α → Bool) (p : α → Bool)
    (hle : ∀ x y, p x = true → p y = true → le x y = true)
    (a : α) (ha : p a = true) (s : List α) :
    (stableInsert le a s).filter p = a :: s.filter p := by
  induction s with
  | nil => simp [stableInsert, ha]
  | cons b bs ih =>
    simp only [stableInsert]
    by_cases h : le a b
    · simp [h, List.filter_cons, ha]
    · have hb : p b = false := by
        cases hbv : p b
        · rfl
        · exact absurd (hle a b ha hbv) (by simpa using h)
      simp [h, List.filter_cons, hb, ih]

/-- Stability: the stable sort does not reorder the elements a key-respecting
filter keeps. -/
theorem filter_stableSortBy {α : Type} (le : α → α → Bool) (p : α → Bool)
    (hle : ∀ x y, p x = true → p y = true → le x y = true) (l : List α) :
    (stableSortBy le l).filter p = l.filter p := by
  induction l with
  | nil => rfl
  | cons a as ih =>
    simp only [stableSortBy]
    cases ha : p a
    · rw [filter_stableInsert_neg le p a ha, ih, List.filter_cons, ha]
      simp
    · rw [filter_stableInsert_pos le p hle a ha, ih, List.filter_cons, ha]
      simp

/-- `computeKeys` succeeds with the original elements tagged by their
keys. -/
theorem computeKeys_ok {α κ : Type} (key : α → Except String κ) (l : List α) :
    ∀ (ps : List (κ × α)), computeKeys key l = Except.ok ps →
      ps.map Prod.snd = l ∧ ∀ x ∈ ps, key x.2 = Except.ok x.1 := by
  induction l with
  | nil =>
    intro ps h
    simp only [computeKeys, Except.ok.injEq] at h
    subst h
    simp
  | cons o rest ih =>
    intro ps h
    simp only [computeKeys] at h
    cases hk : key o with
    | error e => rw [hk] at h; exact absurd h (by simp)
    | ok k =>
      rw [hk] at h
      cases hr : computeKeys key rest with
      | error e => rw [hr] at h; exact absurd h (by simp)
      | ok ps2 =>
        rw [hr] at h
        simp only [Except.ok.injEq] at h
        subst h
        obtain ⟨hmap, hkeys⟩ := ih ps2 hr
        constructor
        · simp [hmap]
        · intro x hx
          rcases List.mem_cons.mp hx with hx1 | hx2
          · subst hx1; simpa using hk
          · exact hkeys x hx2

/-- Stability of the price sort, stated on offers: sorting never reorders the
offers whose price parses to any one value. -/
theorem sortPrice_stable (l res : List ParsedOffer) (q : Rat)
    (h : sortWithKey priceKey ratLeB l = Except.ok res) :
    res.filter (keyIsPrice q) = l.filter (keyIsPrice q) := by
  unfold sortWithKey at h
  cases hc : computeKeys priceKey l with
  | error e => rw [hc] at h; exact absurd h (by simp)
  | ok ps =>
    rw [hc] at h
    simp only [Except.ok.injEq] at h
    subst h
    obtain ⟨hmap, hkeys⟩ := computeKeys_ok priceKey l ps hc
    have hkey_sorted : ∀ x ∈ stableSortBy (fun a b => ratLeB a.1 b.1) ps,
        ((keyIsPrice q) ∘ Prod.snd) x = decide (x.1 = q) := by
      intro x hx
      have hxps : x ∈ ps := (mem_stableSortBy _ x ps).mp hx
      simp [Function.comp, keyIsPrice, hkeys x hxps]
    have hkey_ps : ∀ x ∈ ps, (fun x => decide (x.1 = q)) x = ((keyIsPrice q) ∘ Prod.snd) x := by
      intro x hx
      simp [Function.comp, keyIsPrice, hkeys x hx]
    calc ((stableSortBy (fun a b => ratLeB a.1 b.1) ps).map Prod.snd).filter (keyIsPrice q)
        = ((stableSortBy (fun a b => ratLeB a.1 b.1) ps).filter
            ((keyIsPrice q) ∘ Prod.snd)).map Prod.snd := List.filter_map Prod.snd _
      _ = ((stableSortBy (fun a b => ratLeB a.1 b.1) ps).filter
            (fun x => decide (x.1 = q))).map Prod.snd :=
          congrArg (List.map Prod.snd) (List.filter_congr hkey_sorted)
      _ = (ps.filter (fun x => decide (x.1 = q))).map Prod.snd := by
          refine congrArg (List.map Prod.snd) (filter_stableSortBy _ _ ?_ ps)
          intro x y hx hy
          have hx1 : x.1 = q := by simpa using hx
          have hy1 : y.1 = q := by simpa using hy
          simp [ratLeB, hx1, hy1]
      _ = (ps.filter ((keyIsPrice q) ∘ Prod.snd)).map Prod.snd :=
          congrArg (List.map Prod.snd) (List.filter_congr hkey_ps)
      _ = (ps.map Prod.snd).filter (keyIsPrice q) := (List.filter_map Prod.snd _).symm
      _ = l.filter (keyIsPrice q) := by rw [hmap]

/-- The filter comprehension agrees with `List.filter` over the spec
predicate whenever no offer carries a `None` outbound value. -/
theorem filterOffersAux_eq_filter (c : Nat) (l : List ParsedOffer)
    (h : ∀ o ∈ l, o.outbound ≠ LegV.noneV) :
    filterOffersAux c l = Except.ok (l.filter (specPasses c)) := by
  induction l with
  | nil => rfl
  | cons o rest ih =>
    have ho := h o (List.mem_cons_self o rest)
    have hrest := ih (fun x hx => h x (List.mem_cons_of_mem o hx))
    have hpass : offerPassesStops c o = some (specPasses c o) := by
      cases hob : o.outbound with
      | noneV => exact absurd hob ho
      | emptyV => simp [offerPassesStops, specPasses, stopCountOrDefault, hob]
      | legV leg => simp [offerPassesStops, specPasses, stopCountOrDefault, hob]
    simp [filterOffersAux, hpass, hrest, List.filter_cons]

/-- Infix is reflexive. -/
theorem infixOf_refl (l : List Char) : InfixOf l l := ⟨[], [], by simp⟩

/-- Infix is transitive. -/
theorem infixOf_trans {a b c : List Char} (h1 : InfixOf a b) (h2 : InfixOf b c) :
    InfixOf a c := by
  obtain ⟨p1, q1, rfl⟩ := h1
  obtain ⟨p2, q2, rfl⟩ := h2
  exact ⟨p2 ++ p1, q1 ++ q2, by simp⟩

/-- A dropped prefix gives an infix. -/
theorem drop_infixOf (n : Nat) (l : List Char) : InfixOf (l.drop n) l :=
  ⟨l.take n, [], by simp⟩

/-- A taken prefix gives an infix. -/
theorem take_infixOf (n : Nat) (l : List Char) : InfixOf (l.take n) l :=
  ⟨[], l.drop n, by simp⟩

/-- Splitting off leading and trailing whitespace-drop pieces. -/
theorem dropWhile_rev_decomp (d : List Char) :
    d = (d.reverse.dropWhile pyws).reverse ++ (d.reverse.takeWhile pyws).reverse := by
  conv_lhs => rw [← List.reverse_reverse d, ← List.takeWhile_append_dropWhile pyws d.reverse]
  rw [List.reverse_append]

/-- Stripping whitespace yields an infix. -/
theorem trimWs_infixOf (l : List Char) : InfixOf (trimWs l) l := by
  refine ⟨l.takeWhile pyws, ((l.dropWhile pyws).reverse.takeWhile pyws).reverse, ?_⟩
  conv_lhs => rw [← List.takeWhile_append_dropWhile pyws l,
    dropWhile_rev_decomp (l.dropWhile pyws)]
  simp [trimWs, List.append_assoc]

/-- Fence step 1 yields an infix. -/
theorem stripFence1_infixOf (t : List Char) : InfixOf (stripFence1 t) t := by
  unfold stripFence1
  split
  · exact drop_infixOf 7 t
  · exact infixOf_refl t

/-- Fence step 2 yields an infix. -/
theorem stripFence2_infixOf (t : List Char) : InfixOf (stripFence2 t) t := by
  unfold stripFence2
  split
  · exact drop_infixOf 3 t
  · exact infixOf_refl t

/-- Fence step 3 yields an infix. -/
theorem stripFence3_infixOf (t : List Char) : InfixOf (stripFence3 t) t := by
  unfold stripFence3
  split
  · exact take_infixOf (t.length - 3) t
  · exact infixOf_refl t

/-- The whole fence-stripping pipeline yields an infix of the input. -/
theorem stripFences_infixOf (text : List Char) : InfixOf (stripFences text) text := by
  unfold stripFences
  exact infixOf_trans (trimWs_infixOf _)
    (infixOf_trans (stripFence3_infixOf _)
      (infixOf_trans (stripFence2_infixOf _)
        (infixOf_trans (stripFence1_infixOf _) (trimWs_infixOf text))))

/-- `splitFirstChar` applied across a marked occurrence. -/
theorem splitFirstChar_append (c : Char) (a : List Char) (ha : c ∉ a) (b : List Char) :
    splitFirstChar c (a ++ c :: b) = some (a, b) := by
  induction a with
  | nil => simp [splitFirstChar]
  | cons x xs ih =>
    have hx : ¬ (x = c) := fun he => ha (by simp [he])
    have ihx := ih (fun hm => ha (List.mem_cons_of_mem x hm))
    simp [splitFirstChar, hx, ihx]

/-- What a successful `splitFirstChar` says about its input. -/
theorem splitFirstChar_eq (c : Char) (l : List Char) :
    ∀ (a b : List Char), splitFirstChar c l = some (a, b) → l = a ++ c :: b := by
  induction l with
  | nil => intro a b h; exact absurd h (by simp [splitFirstChar])
  | cons x xs ih =>
    intro a b h
    by_cases hx : x = c
    · simp only [splitFirstChar, if_pos hx, Option.some.injEq, Prod.mk.injEq] at h
      obtain ⟨ha, hb⟩ := h
      rw [← ha, ← hb]
      simp [hx]
    · simp only [splitFirstChar, if_neg hx] at h
      cases hs : splitFirstChar c xs with
      | none => rw [hs] at h; exact absurd h (by simp)
      | some ab =>
        obtain ⟨a2, b2⟩ := ab
        rw [hs] at h
        simp only [Option.some.injEq, Prod.mk.injEq] at h
        obtain ⟨ha, hb⟩ := h
        rw [← ha, ← hb, ih a2 b2 hs]
        simp

/-- A list starting with a backtick is never a prefix of a list that does not
start with one. -/
theorem isPrefixOf_backtick_false (t l : List Char) (h : l.head? ≠ some '\x60') :
    ((('\x60' :: t).isPrefixOf l)) = false := by
  cases l with
  | nil => rfl
  | cons b bs =>
    have hb : ¬ ('\x60' = b) := fun he => h (by rw [← he]; rfl)
    simp [List.isPrefixOf, hb]

/-- Every list is a prefix of itself followed by anything. -/
theorem isPrefixOf_append_self (l r : List Char) : ((l.isPrefixOf (l ++ r))) = true := by
  induction l with
  | nil => simp [List.isPrefixOf]
  | cons a as ih => simp [List.isPrefixOf, ih]

/-- Dropping while a predicate fails at the head is the identity. -/
theorem dropWhile_eq_self_of_head (p : Char → Bool) (l : List Char)
    (h : ∀ c, l.head? = some c → p c = false) :
    l.dropWhile p = l := by
  cases l with
  | nil => rfl
  | cons a as => simp [List.dropWhile_cons, h a rfl]

/-- Stripping is the identity when both ends are not whitespace. -/
theorem trimWs_eq_self (l : List Char)
    (h1 : ∀ c, l.head? = some c → pyws c = false)
    (h2 : ∀ c, l.getLast? = some c → pyws c = false) : trimWs l = l := by
  unfold trimWs
  rw [dropWhile_eq_self_of_head pyws l h1]
  rw [dropWhile_eq_self_of_head pyws l.reverse
    (fun c hc => h2 c (by rwa [List.head?_reverse] at hc))]
  exact List.reverse_reverse l

/-- The fence-stripping pipeline is the identity on already-stripped text
that neither starts nor ends with a backtick. -/
theorem stripFences_eq_self (l : List Char) (ht : trimWs l = l)
    (h1 : l.head? ≠ some '\x60') (h2 : l.getLast? ≠ some '\x60') :
    stripFences l = l := by
  have e7 : ("```json".toList) = '\x60' :: ("``json".toList) := rfl
  have e3 : ("```".toList) = '\x60' :: ("``".toList) := rfl
  have hrev : l.reverse.head? ≠ some '\x60' := by rwa [List.head?_reverse]
  unfold stripFences stripFence1 stripFence2 stripFence3
  rw [ht, e7, e3, isPrefixOf_backtick_false _ _ h1]
  simp only [Bool.false_eq_true, if_false]
  rw [isPrefixOf_backtick_false _ _ h1]
  simp only [Bool.false_eq_true, if_false]
  rw [isPrefixOf_backtick_false _ _ hrev]
  simp only [Bool.false_eq_true, if_false]
  exact ht

/-- The fence-stripping pipeline on text wrapped in json code fences returns
the wrapped text. -/
theorem stripFences_fenced (inner : List Char) (ht : trimWs inner = inner)
    (hne : inner ≠ []) (h1 : inner.head? ≠ some '\x60') :
    stripFences ("```json".toList ++ (inner ++ "```".toList)) = inner := by
  obtain ⟨c0, itail, rfl⟩ : ∃ c0 itail, inner = c0 :: itail := by
    cases inner with
    | nil => exact absurd rfl hne
    | cons c0 itail => exact ⟨c0, itail, rfl⟩
  have e3 : ("```".toList) = '\x60' :: ("``".toList) := rfl
  have hlen7 : ("```json".toList).length = 7 := rfl
  have htrim : trimWs ("```json".toList ++ ((c0 :: itail) ++ "```".toList))
      = "```json".toList ++ ((c0 :: itail) ++ "```".toList) := by
    refine trimWs_eq_self _ ?_ ?_
    · intro c hc
      have hh : ("```json".toList ++ ((c0 :: itail) ++ "```".toList)).head? = some '\x60' := rfl
      rw [hh] at hc
      cases hc
      rfl
    · intro c hc
      rw [← List.head?_reverse] at hc
      have hh : ("```json".toList ++ ((c0 :: itail) ++ "```".toList)).reverse.head?
          = some '\x60' := by
        rw [List.reverse_append, List.reverse_append]
        rfl
      rw [hh] at hc
      cases hc
      rfl
  have hs1 : stripFence1 ("```json".toList ++ ((c0 :: itail) ++ "```".toList))
      = (c0 :: itail) ++ "```".toList := by
    unfold stripFence1
    split
    · rw [← hlen7, List.drop_left]
    · rename_i hcond
      exact absurd (isPrefixOf_append_self ("```json".toList) ((c0 :: itail) ++ "```".toList)) hcond
  have hs2 : stripFence2 ((c0 :: itail) ++ "```".toList) = (c0 :: itail) ++ "```".toList := by
    unfold stripFence2
    split
    · rename_i hcond
      rw [e3] at hcond
      rw [isPrefixOf_backtick_false ("``".toList) ((c0 :: itail) ++ '\x60' :: ("``".toList))
        (by simpa using h1)] at hcond
      exact absurd hcond (by simp)
    · rfl
  have hs3 : stripFence3 ((c0 :: itail) ++ "```".toList) = c0 :: itail := by
    unfold stripFence3
    split
    · have hlen : ((c0 :: itail) ++ "```".toList).length - 3 = (c0 :: itail).length := by
        simp
      rw [hlen, List.take_left]
    · rename_i hcond
      refine absurd ?_ hcond
      rw [List.reverse_append]
      have hrev3 : ("```".toList).reverse = "```".toList := rfl
      rw [hrev3]
      exact isPrefixOf_append_self ("```".toList) ((c0 :: itail).reverse)
  unfold stripFences
  rw [htrim, hs1, hs2, hs3, ht]

/-- The greedy brace match on a brace-delimited span with brace-free
surroundings returns exactly that span. -/
theorem braceMatch_embedded (pre mid post : List Char)
    (hpre : '\x7b' ∉ pre) (hpost : '\x7d' ∉ post) :
    braceMatch (embedText pre mid post) = some (braceObj mid) := by
  unfold braceMatch embedText braceObj
  have hassoc : pre ++ ('\x7b' :: (mid ++ ['\x7d'])) ++ post
      = pre ++ '\x7b' :: (mid ++ '\x7d' :: post) := by simp
  have hrev : (mid ++ '\x7d' :: post).reverse = post.reverse ++ '\x7d' :: mid.reverse := by
    simp
  rw [hassoc, splitFirstChar_append '\x7b' pre hpre (mid ++ '\x7d' :: post)]
  dsimp only
  rw [hrev, splitFirstChar_append '\x7d' post.reverse (by simpa using hpost) mid.reverse]
  simp

/-- A successful greedy brace match is an infix of its input. -/
theorem braceMatch_infixOf (l m : List Char) (h : braceMatch l = some m) : InfixOf m l := by
  unfold braceMatch at h
  cases h1 : splitFirstChar '\x7b' l with
  | none => rw [h1] at h; exact absurd h (by simp)
  | some ab =>
    obtain ⟨a, b⟩ := ab
    rw [h1] at h
    dsimp only at h
    cases h2 : splitFirstChar '\x7d' b.reverse with
    | none => rw [h2] at h; exact absurd h (by simp)
    | some dc =>
      obtain ⟨d, cRev⟩ := dc
      rw [h2] at h
      dsimp only at h
      simp only [Option.some.injEq] at h
      have hl := splitFirstChar_eq '\x7b' l a b h1
      have hb := splitFirstChar_eq '\x7d' b.reverse d cRev h2
      have hbb : b = cRev.reverse ++ '\x7d' :: d.reverse := by
        have hrr := congrArg List.reverse hb
        rw [List.reverse_reverse] at hrr
        rw [hrr]
        simp
      refine ⟨a, d.reverse, ?_⟩
      rw [hl, hbb, ← h]
      simp

/-- Any infix occurs in the enumerated list of infixes. -/
theorem infixOf_mem_allInfixes (m l : List Char) (h : InfixOf m l) : m ∈ allInfixes l := by
  obtain ⟨p, q, rfl⟩ := h
  unfold allInfixes
  rw [List.mem_flatMap]
  refine ⟨m ++ q, ?_, ?_⟩
  · rw [List.mem_tails]
    exact ⟨p, by simp⟩
  · rw [List.mem_inits]
    exact ⟨q, rfl⟩

/-- C4: for every input text containing no valid JSON anywhere (no contiguous
substring parses), the itinerary JSON extractor returns the empty mapping.
The embedded function is total, matching the source, whose only raisable
exception (json.JSONDecodeError) is caught on every path. -/
theorem flight_C4 (text : List Char) (h : noJsonAnywhere text = true) :
    parse_itinerary_json text = Json.obj [] := by
  have key : ∀ m, InfixOf m text → json_loads m = none := by
    intro m hm
    have hall := (List.all_eq_true.mp h) m (infixOf_mem_allInfixes m text hm)
    simpa [Option.isNone_iff_eq_none] using hall
  have h1 := key _ (stripFences_infixOf text)
  simp only [parse_itinerary_json, h1]
  cases hb : braceMatch (stripFences text) with
  | none => rfl
  | some m =>
    have h2 := key m (infixOf_trans (braceMatch_infixOf _ _ hb) (stripFences_infixOf text))
    simp only [hb, h2]

/-- The empty text is not JSON. -/
theorem json_loads_nil : json_loads [] = none := rfl

/-- C5 part: the extractor on already-stripped well-formed JSON text returns
its strict parse. -/
theorem parse_itinerary_json_direct (inner : List Char) (v : Json)
    (ht : trimWs inner = inner) (hh : inner.head? ≠ some '\x60')
    (hl : inner.getLast? ≠ some '\x60') (hj : json_loads inner = some v) :
    parse_itinerary_json inner = v := by
  simp only [parse_itinerary_json, stripFences_eq_self inner ht hh hl, hj]

/-- C5 part: the extractor on the same text wrapped in json code fences also
returns its strict parse. -/
theorem parse_itinerary_json_fenced (inner : List Char) (v : Json)
    (ht : trimWs inner = inner) (hh : inner.head? ≠ some '\x60')
    (hj : json_loads inner = some v) :
    parse_itinerary_json ("```json".toList ++ (inner ++ "```".toList)) = v := by
  have hne : inner ≠ [] := by
    intro he
    rw [he, json_loads_nil] at hj
    cases hj
  simp only [parse_itinerary_json, stripFences_fenced inner ht hne hh, hj]

/-- C5 part: the extractor on a brace-delimited JSON object embedded in
brace-free prose returns that object, provided the whole text does not parse
strictly. -/
theorem parse_itinerary_json_embedded (pre mid post : List Char) (v : Json)
    (hpre1 : '\x7b' ∉ pre) (_hpre2 : '\x7d' ∉ pre)
    (_hpost1 : '\x7b' ∉ post) (hpost2 : '\x7d' ∉ post)
    (ht : trimWs (embedText pre mid post) = embedText pre mid post)
    (hh : (embedText pre mid post).head? ≠ some '\x60')
    (hl : (embedText pre mid post).getLast? ≠ some '\x60')
    (hwhole : json_loads (embedText pre mid post) = none)
    (hj : json_loads (braceObj mid) = some v) :
    parse_itinerary_json (embedText pre mid post) = v := by
  simp only [parse_itinerary_json, stripFences_eq_self _ ht hh hl, hwhole,
    braceMatch_embedded pre mid post hpre1 hpost2, hj]

/-- C1 (amended): for every finite stop ceiling c ≤ 2 and every list of
normalized offers in which each offer has a mapping (possibly empty) under
outbound — i.e. each was normalized from a record with at least one
itinerary — the filter returns exactly the offers passing the spec rule
(outbound stop count ≤ c, and no truthy return leg or return stop count
≤ c), in their original relative order (List.filter preserves order); an
offer whose outbound leg is the empty leg object is treated as stop count
999 and never kept; the unbounded selection returns the list unchanged.
Amendment forced by the counterexample: an offer normalized from a record
with NO itineraries stores Python None under outbound, and the filter then
raises AttributeError instead of treating its stop count as 999. -/
theorem flight_C1 (c : Nat) (l : List ParsedOffer) (hc : c ≤ 2)
    (h : ∀ o ∈ l, o.outbound ≠ LegV.noneV) :
    filterOffersAux c l = Except.ok (l.filter (specPasses c))
      ∧ (∀ o ∈ l.filter (specPasses c), o.outbound ≠ LegV.emptyV)
      ∧ display_filter_offers StopSel.any l = Except.ok l := by
  refine ⟨filterOffersAux_eq_filter c l h, ?_, rfl⟩
  intro o ho he
  have hsp := (List.mem_filter.mp ho).2
  simp only [specPasses, he, stopCountOrDefault, Bool.and_eq_true, decide_eq_true_eq] at hsp
  obtain ⟨h999, -⟩ := hsp
  omega

/-- C1 witness: the amended filter theorem applied to a ceiling of 1 and two
real offers. -/
theorem flight_C1_witness :
    filterOffersAux 1 [offer250, offerNA]
        = Except.ok ([offer250, offerNA].filter (specPasses 1))
      ∧ (∀ o ∈ [offer250, offerNA].filter (specPasses 1), o.outbound ≠ LegV.emptyV)
      ∧ display_filter_offers StopSel.any [offer250, offerNA]
        = Except.ok [offer250, offerNA] :=
  flight_C1 1 [offer250, offerNA] (by decide) (by decide)

/-- C1 counterexample: with ceiling 0, an offer normalized from a record
with no itineraries makes the filter raise AttributeError, not return the
empty kept-list the claim predicts for a missing outbound leg. -/
theorem flight_C1_cex :
    display_filter_offers StopSel.s0 [parse_flight_offer offerNoItins]
        = Except.error ("AttributeError")
      ∧ display_filter_offers StopSel.s0 [parse_flight_offer offerNoItins]
        ≠ Except.ok [] := by
  constructor
  · rfl
  · intro hcontra
    rw [show display_filter_offers StopSel.s0 [parse_flight_offer offerNoItins]
        = Except.error ("AttributeError") from rfl] at hcontra
    exact Except.noConfusion hcontra

/-- C2 (code bug): the source has sort branches only for the two price
orders and duration; selecting Departure Time leaves the offers in their
post-filter order.  Here the first offer departs later than the second —
lexicographic ascending order on the outbound departure timestamps would
swap them — yet the pipeline returns the list unchanged. -/
theorem flight_C2_bug :
    display_sort_offers SortSel.departureTime [offerDepLate, offerDepEarly]
        = Except.ok [offerDepLate, offerDepEarly]
      ∧ (∃ lateLeg earlyLeg, offerDepLate.outbound = LegV.legV lateLeg
          ∧ offerDepEarly.outbound = LegV.legV earlyLeg
          ∧ strLeB earlyLeg.departure_time lateLeg.departure_time = true
          ∧ earlyLeg.departure_time ≠ lateLeg.departure_time) :=
  ⟨rfl, ⟨_, _, rfl, rfl, by decide, by decide⟩⟩

/-- C3 (code bug): sorting by price does not place an offer with a
non-numeric price string at the end; computing its key raises ValueError
(float of the price placeholder), aborting the sort with an exception. -/
theorem flight_C3_bug :
    display_sort_offers SortSel.priceLowHigh [offer100, offerNA]
        = Except.error ("ValueError")
      ∧ offerNA.price = "N/A" :=
  ⟨rfl, rfl⟩

/-- C6: the clamp satisfies the five sample equations and equals
max(1, min(30, n)) for every integer; the planner post-processing clamps
total_days exactly when the field is present and a Python int (a Python bool
being an int), and returns any other mapping unchanged. -/
theorem flight_C6 :
    (clamp_days 0 1 30 = 1 ∧ clamp_days 31 1 30 = 30 ∧ clamp_days 15 1 30 = 15
      ∧ clamp_days 1 1 30 = 1 ∧ clamp_days 30 1 30 = 30)
    ∧ (∀ n : Int, clamp_days n 1 30 = max 1 (min 30 n))
    ∧ (∀ m n, lookupKey ("total_days") m = some (Json.int n) →
        planner_clamp_total_days m
          = setKey ("total_days") (Json.int (max 1 (min 30 n))) m)
    ∧ (∀ m v, lookupKey ("total_days") m = some v → v.isPyInt = false →
        planner_clamp_total_days m = m)
    ∧ (∀ m, lookupKey ("total_days") m = none → planner_clamp_total_days m = m) := by
  refine ⟨⟨by decide, by decide, by decide, by decide, by decide⟩, fun n => rfl, ?_, ?_, ?_⟩
  · intro m n h
    simp [planner_clamp_total_days, h, Json.isPyInt, Json.pyIntVal, clamp_days]
  · intro m v h hv
    simp [planner_clamp_total_days, h, hv]
  · intro m h
    simp [planner_clamp_total_days, h]

/-- C6 witness: the planner clamp on three concrete mappings — an
out-of-range int clamped, a string left alone, an absent field left
alone. -/
theorem flight_C6_witness :
    planner_clamp_total_days [(("total_days" : String), Json.int 45)]
        = setKey ("total_days") (Json.int (max 1 (min 30 45)))
            [(("total_days" : String), Json.int 45)]
      ∧ planner_clamp_total_days [(("total_days" : String), Json.str ("ten"))]
        = [(("total_days" : String), Json.str ("ten"))]
      ∧ planner_clamp_total_days [(("destination" : String), Json.null)]
        = [(("destination" : String), Json.null)] :=
  ⟨flight_C6.2.2.1 _ 45 rfl, flight_C6.2.2.2.1 _ _ rfl rfl, flight_C6.2.2.2.2 _ rfl⟩

/-- C7: a leg with non-empty segments normalizes to a real leg whose stops
equal the segment count minus one and whose endpoint data comes from the
first segment departure and the last segment arrival; consequently a
two-itinerary offer with two segments per itinerary gets stop count 1 on
both legs with bridged endpoints. -/
theorem flight_C7 :
    (∀ (it : RawItinerary) (s0 : RawSegment) (rest : List RawSegment),
      it.segments = s0 :: rest →
      ∃ leg, parse_itinerary it = LegV.legV leg
        ∧ leg.stops + 1 = (s0 :: rest).length
        ∧ leg.departure_airport = ((s0.departure.getD emptyEndpoint).iataCode.getD (""))
        ∧ leg.departure_time = ((s0.departure.getD emptyEndpoint).«at».getD (""))
        ∧ leg.arrival_airport
            = ((((s0 :: rest).getLast (List.cons_ne_nil s0 rest)).arrival.getD
                emptyEndpoint).iataCode.getD (""))
        ∧ leg.arrival_time
            = ((((s0 :: rest).getLast (List.cons_ne_nil s0 rest)).arrival.getD
                emptyEndpoint).«at».getD ("")))
    ∧ (∀ (offer : RawOffer) (i0 i1 : RawItinerary) (a b c d : RawSegment),
        offer.itineraries = [i0, i1] → i0.segments = [a, b] → i1.segments = [c, d] →
        ∃ lo lr, (parse_flight_offer offer).outbound = LegV.legV lo
          ∧ (parse_flight_offer offer).«return» = LegV.legV lr
          ∧ lo.stops = 1 ∧ lr.stops = 1
          ∧ lo.departure_airport = ((a.departure.getD emptyEndpoint).iataCode.getD (""))
          ∧ lo.departure_time = ((a.departure.getD emptyEndpoint).«at».getD (""))
          ∧ lo.arrival_airport = ((b.arrival.getD emptyEndpoint).iataCode.getD (""))
          ∧ lo.arrival_time = ((b.arrival.getD emptyEndpoint).«at».getD (""))
          ∧ lr.departure_airport = ((c.departure.getD emptyEndpoint).iataCode.getD (""))
          ∧ lr.departure_time = ((c.departure.getD emptyEndpoint).«at».getD (""))
          ∧ lr.arrival_airport = ((d.arrival.getD emptyEndpoint).iataCode.getD (""))
          ∧ lr.arrival_time = ((d.arrival.getD emptyEndpoint).«at».getD (""))) := by
  constructor
  · intro it s0 rest h
    obtain ⟨dur, segs⟩ := it
    simp only at h
    subst h
    exact ⟨_, rfl, by simp [parse_itinerary], rfl, rfl, rfl, rfl⟩
  · intro offer i0 i1 a b c d hoff h0 h1
    obtain ⟨pr, its⟩ := offer
    simp only at hoff
    subst hoff
    obtain ⟨d0, segs0⟩ := i0
    obtain ⟨d1, segs1⟩ := i1
    simp only at h0 h1
    subst h0
    subst h1
    exact ⟨_, _, rfl, rfl, rfl, rfl, rfl, rfl, rfl, rfl, rfl, rfl, rfl, rfl⟩

/-- C7 witness: the normalizer theorem applied to the concrete two-by-two
offer. -/
theorem flight_C7_witness :
    ∃ lo lr, (parse_flight_offer demoOffer2x2).outbound = LegV.legV lo
      ∧ (parse_flight_offer demoOffer2x2).«return» = LegV.legV lr
      ∧ lo.stops = 1 ∧ lr.stops = 1
      ∧ lo.departure_airport = ((demoSegO1.departure.getD emptyEndpoint).iataCode.getD (""))
      ∧ lo.departure_time = ((demoSegO1.departure.getD emptyEndpoint).«at».getD (""))
      ∧ lo.arrival_airport = ((demoSegO2.arrival.getD emptyEndpoint).iataCode.getD (""))
      ∧ lo.arrival_time = ((demoSegO2.arrival.getD emptyEndpoint).«at».getD (""))
      ∧ lr.departure_airport = ((demoSegR1.departure.getD emptyEndpoint).iataCode.getD (""))
      ∧ lr.departure_time = ((demoSegR1.departure.getD emptyEndpoint).«at».getD (""))
      ∧ lr.arrival_airport = ((demoSegR2.arrival.getD emptyEndpoint).iataCode.getD (""))
      ∧ lr.arrival_time = ((demoSegR2.arrival.getD emptyEndpoint).«at».getD ("")) :=
  flight_C7.2 demoOffer2x2 demoIt0 demoIt1 demoSegO1 demoSegO2 demoSegR1 demoSegR2 rfl rfl rfl

/-- C8 (amended): the normalized offer keeps the original provider record
unchanged under raw for every record with at least one itinerary.  Amendment
forced by the counterexample: for a record with an empty itineraries list
the early return omits the raw key, so the claim does not hold "regardless
of how many itineraries the record has". -/
theorem flight_C8 (offer : RawOffer) (h : offer.itineraries ≠ []) :
    (parse_flight_offer offer).raw = some offer := by
  obtain ⟨pr, its⟩ := offer
  cases its with
  | nil => exact absurd rfl h
  | cons i0 rest => rfl

/-- C8 witness: the raw field of the two-by-two demo offer. -/
theorem flight_C8_witness :
    (parse_flight_offer demoOffer2x2).raw = some demoOffer2x2 :=
  flight_C8 demoOffer2x2 (by decide)

/-- C8 counterexample: a record with no itineraries is normalized without a
raw field. -/
theorem flight_C8_cex :
    (parse_flight_offer offerNoItins).raw = none
      ∧ (parse_flight_offer offerNoItins).raw ≠ some offerNoItins :=
  ⟨rfl, by decide⟩

/-- C9: sorting by price ascending parses each price as a decimal after
removing commas, ordering the sample offers 99.50, 250.00, 1200.00; and the
sort is stable — it never reorders the offers whose prices parse to any one
value, so ties keep their original relative order. -/
theorem flight_C9 :
    display_sort_offers SortSel.priceLowHigh [offer250, offer9950, offer1200]
        = Except.ok [offer9950, offer250, offer1200]
    ∧ (∀ l res, display_sort_offers SortSel.priceLowHigh l = Except.ok res →
        ∀ q : Rat, res.filter (keyIsPrice q) = l.filter (keyIsPrice q)) := by
  constructor
  · rfl
  · intro l res h q
    exact sortPrice_stable l res q h

/-- C9 witness: the stability statement applied to a concrete sort that
reorders two offers. -/
theorem flight_C9_witness :
    ([offer9950, offer250].filter (keyIsPrice ((250 : Rat))))
      = ([offer250, offer9950].filter (keyIsPrice ((250 : Rat)))) :=
  flight_C9.2 [offer250, offer9950] [offer9950, offer250] rfl ((250 : Rat))

/-- C10: for every integer adults value, the request parameters carry an
adults entry whose value is the string form of max(1, adults), which is at
least 1. -/
theorem flight_C10 (origin destination departure_date : String)
    (return_date : Option String) (adults : Int) (currency : Option String)
    (non_stop : Option Bool) (max_results : Int) :
    (search_flights_params origin destination departure_date return_date adults
        currency non_stop max_results).lookup ("adults")
      = some (toString (max 1 adults))
    ∧ 1 ≤ max 1 adults :=
  ⟨rfl, le_max_left 1 adults⟩

/-- C5: the extractor returns the exact strict parse for well-formed JSON
text (stripped text that is not fence-delimited), with or without a
json code-fence wrapper; and for a brace-delimited JSON object embedded in
brace-free prose (with the whole text not strictly parseable), it returns
exactly that object. -/
theorem flight_C5 :
    (∀ inner v, trimWs inner = inner → inner.head? ≠ some '\x60' →
      inner.getLast? ≠ some '\x60' → json_loads inner = some v →
      parse_itinerary_json inner = v
        ∧ parse_itinerary_json ("```json".toList ++ (inner ++ "```".toList)) = v)
    ∧ (∀ pre mid post v,
        '\x7b' ∉ pre → '\x7d' ∉ pre → '\x7b' ∉ post → '\x7d' ∉ post →
        trimWs (embedText pre mid post) = embedText pre mid post →
        (embedText pre mid post).head? ≠ some '\x60' →
        (embedText pre mid post).getLast? ≠ some '\x60' →
        json_loads (embedText pre mid post) = none →
        json_loads (braceObj mid) = some v →
        parse_itinerary_json (embedText pre mid post) = v) := by
  constructor
  · intro inner v ht hh hl hj
    exact ⟨parse_itinerary_json_direct inner v ht hh hl hj,
           parse_itinerary_json_fenced inner v ht hh hj⟩
  · intro pre mid post v h1 h2 h3 h4 ht hh hl hw hj
    exact parse_itinerary_json_embedded pre mid post v h1 h2 h3 h4 ht hh hl hw hj

/-- C5 witness: the extractor theorem applied to a concrete JSON object,
bare, fenced, and embedded in prose. -/
theorem flight_C5_witness :
    parse_itinerary_json ("\x7b\"a\": 1\x7d".toList)
        = Json.obj [(("a" : String), Json.int 1)]
      ∧ parse_itinerary_json
          ("```json".toList ++ ("\x7b\"a\": 1\x7d".toList ++ "```".toList))
        = Json.obj [(("a" : String), Json.int 1)]
      ∧ parse_itinerary_json (embedText ("see ".toList) ("\"a\": 1".toList) (" ok".toList))
        = Json.obj [(("a" : String), Json.int 1)] :=
  ⟨(flight_C5.1 ("\x7b\"a\": 1\x7d".toList) (Json.obj [(("a" : String), Json.int 1)])
      rfl (by decide) (by decide) rfl).1,
   (flight_C5.1 ("\x7b\"a\": 1\x7d".toList) (Json.obj [(("a" : String), Json.int 1)])
      rfl (by decide) (by decide) rfl).2,
   flight_C5.2 ("see ".toList) ("\"a\": 1".toList) (" ok".toList)
     (Json.obj [(("a" : String), Json.int 1)])
     (by decide) (by decide) (by decide) (by decide) rfl
     (by decide) (by decide) rfl rfl⟩

/-- C4 witness: the no-valid-JSON theorem applied to concrete text whose
every substring fails to parse (its brace span holds a bare identifier). -/
theorem flight_C4_witness :
    noJsonAnywhere ("x\x7by\x7d".toList) = true
      ∧ parse_itinerary_json ("x\x7by\x7d".toList) = Json.obj [] :=
  ⟨by decide, flight_C4 _ (by decide)⟩
